import Mathlib

/-!
Verification of the core components of the football-agent repository:
the League Settings Store (`app/utils/league_memory.py`), the process
launch configurator embedded in `FantasyFootballAgent.__init__`
(`app/agent.py`), and the workflow progress tracker
(`_track_workflow_state_before` / `_track_workflow_state_after` in
`app/agent.py`).  The Python code is shallowly embedded: JSON-like Python
values become the inductive `PyVal`, Python dicts become association
lists with dict update semantics, fallible operations return `Except`,
and the file-system write outcome is passed in as an explicit boolean.
-/

/-- Model of the Python/JSON values that flow through the league store:
`None`, booleans, integers, strings, lists and string-keyed dicts.
(JSON floats never matter to the verified paths and are omitted.) -/
inductive PyVal where
  | pynone
  | pybool (b : Bool)
  | pyint (n : Int)
  | pystr (s : String)
  | pylist (xs : List PyVal)
  | pydict (xs : List (String × PyVal))

/-- A Python dict with string keys, as an association list in insertion
order (Python dicts preserve insertion order and have unique keys). -/
abbrev PyDict := List (String × PyVal)

/-- `d[k]` lookup for an association-list dict: first matching key. -/
def dget {α : Type} (d : List (String × α)) (k : String) : Option α :=
  match d with
  | [] => none
  | (k₁, v) :: t => if k₁ = k then some v else dget t k

/-- `d.get(k, dflt)`. -/
def dgetD {α : Type} (d : List (String × α)) (k : String) (dflt : α) : α :=
  (dget d k).getD dflt

/-- `d[k] = v` assignment: updates the value in place if the key exists,
otherwise appends, mirroring Python dict insertion-order semantics. -/
def dset {α : Type} (d : List (String × α)) (k : String) (v : α) :
    List (String × α) :=
  match d with
  | [] => [(k, v)]
  | (k₁, v₁) :: t => if k₁ = k then (k₁, v) :: t else (k₁, v₁) :: dset t k v

/-- ASCII lowering of a string, modelling `str.lower()` on the ASCII
strings the tracker and store actually handle. -/
def strLower (s : String) : String := ⟨s.data.map Char.toLower⟩

/-- ASCII uppercasing of a string, modelling `str.upper()`. -/
def strUpper (s : String) : String := ⟨s.data.map Char.toUpper⟩

/-- Substring test on character lists: does `pat` occur inside `l`? -/
def containsSeg (pat : List Char) : List Char → Bool
  | [] => pat.isEmpty
  | c :: t => pat.isPrefixOf (c :: t) || containsSeg pat t

/-- Python `pat in s` substring containment. -/
def containsStr (s pat : String) : Bool := containsSeg pat.data s.data

/-- `s.startswith(pre)`. -/
def strStarts (s pre : String) : Bool := pre.data.isPrefixOf s.data

/-- `s.endswith(suf)`. -/
def strEnds (s suf : String) : Bool := suf.data.isSuffixOf s.data

/-- Python truthiness of a value (`if x:`): `None`, `False`, `0`, empty
string and empty containers are falsy. -/
def pyTruthy : PyVal → Bool
  | .pynone => false
  | .pybool b => b
  | .pyint n => n != 0
  | .pystr s => s != ""
  | .pylist xs => !xs.isEmpty
  | .pydict xs => !xs.isEmpty

/-- The single-quote character used by Python `repr` of strings,
constructed by code point to keep the file free of quote literals. -/
def pyQuote : String := String.singleton (Char.ofNat 39)

/-- Comma-separated join used by Python renderings of lists/dicts. -/
def joinComma : List String → String
  | [] => ""
  | [x] => x
  | x :: xs => x ++ ", " ++ joinComma xs

mutual

/-- Python `repr(v)`: strings are quoted, containers recurse. -/
def pyRepr : PyVal → String
  | .pynone => "None"
  | .pybool true => "True"
  | .pybool false => "False"
  | .pyint n => toString n
  | .pystr s => pyQuote ++ s ++ pyQuote
  | .pylist xs => "[" ++ pyReprList xs ++ "]"
  | .pydict xs => "\x7b" ++ pyReprDict xs ++ "\x7d"

/-- Comma-separated `repr` of the items of a Python list. -/
def pyReprList : List PyVal → String
  | [] => ""
  | [x] => pyRepr x
  | x :: y :: xs => pyRepr x ++ ", " ++ pyReprList (y :: xs)

/-- Comma-separated `repr` of the items of a Python dict. -/
def pyReprDict : List (String × PyVal) → String
  | [] => ""
  | [(k, v)] => pyQuote ++ k ++ pyQuote ++ ": " ++ pyRepr v
  | (k, v) :: p :: xs =>
      pyQuote ++ k ++ pyQuote ++ ": " ++ pyRepr v ++ ", " ++ pyReprDict (p :: xs)

end

/-- Python `str(v)`: like `repr` except that a string renders as itself. -/
def pyToStr (v : PyVal) : String :=
  match v with
  | .pystr s => s
  | v => pyRepr v

/-! ## League Settings Store — `app/utils/league_memory.py` -/

/-- The normalized record built by `LeagueRulesMemory.store_league_rules`
(lines 75–86).  Every field is always present; `raw_data` retains the
full input dict verbatim. -/
structure StoredRules where
  league_id : String
  scoring_type : PyVal
  roster_positions : PyVal
  scoring_settings : PyVal
  position_eligibility : PyVal
  num_teams : PyVal
  season : PyVal
  league_name : PyVal
  discovered_at : PyVal
  raw_data : PyDict

/-- The record-construction ("normalize") step inside
`store_league_rules`: a pure total function of the raw input dict. -/
def normalizeRules (league_id : String) (league_info : PyDict) : StoredRules :=
  { league_id := league_id
    scoring_type := dgetD league_info "scoring_type" (.pystr "Unknown")
    roster_positions := dgetD league_info "roster_positions" (.pylist [])
    scoring_settings := dgetD league_info "scoring_settings" (.pydict [])
    position_eligibility := dgetD league_info "position_eligibility" (.pydict [])
    num_teams := dgetD league_info "num_teams" .pynone
    season := dgetD league_info "season" .pynone
    league_name := dgetD league_info "name" (.pystr "")
    discovered_at := dgetD league_info "discovered_at" .pynone
    raw_data := league_info }

/-- The in-memory state of `LeagueRulesMemory`: the `_memory` dict
mapping league id to its stored record. -/
structure MemState where
  memory : List (String × StoredRules)

/-- `LeagueRulesMemory._save_memory` (lines 54–61): attempts the local
file write; on failure it *logs and returns normally* — the exception is
swallowed inside `_save_memory` and never propagates to the caller.
`writeOk` is the outcome of the underlying `open`/`json.dump`. -/
def save_memory (writeOk : Bool) : Unit :=
  match (if writeOk then Except.ok () else Except.error "StorageIOError" :
      Except String Unit) with
  | .ok _ => ()
  | .error _ => ()   -- logger.error(...): logged only, not re-raised

/-- Python `len(v)`: defined for the sized values of this model
(strings, lists, dicts); raises `TypeError` otherwise. -/
def pyLen : PyVal → Except String Nat
  | .pystr s => .ok s.length
  | .pylist xs => .ok xs.length
  | .pydict xs => .ok xs.length
  | _ => .error "TypeError: object has no len()"

/-- `LeagueRulesMemory.store_league_rules` (lines 63–98): builds the
normalized record, writes it into `_memory`, calls `_save_memory`, logs,
and returns `True`.  The surrounding `try/except` covers the whole body;
for a dict input the only raise point left is the logging line 93, which
computes `len(stored_rules.get('roster_positions', []))` and raises
`TypeError` on a non-sized value, making the function return `False`.
`_save_memory` swallows write errors, so neither the returned boolean
nor anything else depends on `writeOk`; the `_memory` update (line 88)
precedes every raise point, so the cache is updated on both outcomes. -/
def store_league_rules (st : MemState) (writeOk : Bool) (league_id : String)
    (league_info : PyDict) : MemState × Bool :=
  let stored := normalizeRules league_id league_info
  let st₁ : MemState := ⟨dset st.memory league_id stored⟩
  let _ := save_memory writeOk
  (st₁, match pyLen stored.roster_positions with
        | .ok _ => true
        | .error _ => false)

/-- `LeagueRulesMemory.get_league_rules` (lines 100–115).  The code
returns the dict when it is truthy; a record stored by
`store_league_rules` always has ten keys, hence is always truthy, so the
lookup result is returned as is. -/
def get_league_rules (st : MemState) (league_id : String) :
    Option StoredRules :=
  dget st.memory league_id

/-- `LeagueRulesMemory.has_league_rules` (lines 117–126). -/
def has_league_rules (st : MemState) (league_id : String) : Bool :=
  (dget st.memory league_id).isSome

/-- `LeagueRulesMemory.clear_league_rules` for a specific league
(lines 136–150, the `league_id` branch). -/
def clear_league_rules (st : MemState) (league_id : String) : MemState :=
  ⟨st.memory.filter (fun kv => kv.1 ≠ league_id)⟩

/-! ### `LeagueRulesMemory.format_rules_for_agent` (lines 152–199) -/

/-- `['BN', 'BE', 'BENCH', 'IR']` — bench / injured-reserve slot names. -/
def benchNames : List String := ["BN", "BE", "BENCH", "IR"]

/-- `['SUPERFLEX', 'OP']` — positions that trigger the explanatory note. -/
def superNames : List String := ["SUPERFLEX", "OP"]

/-- `pos.get('position', pos.get('type', 'Unknown'))` for dict entries,
`str(pos)` for anything else. -/
def posEntryName (pos : PyVal) : PyVal :=
  match pos with
  | .pydict d => dgetD d "position" (dgetD d "type" (.pystr "Unknown"))
  | v => .pystr (pyToStr v)

/-- `pos.get('count', 1)` for dict entries, `1` otherwise. -/
def posEntryCount (pos : PyVal) : PyVal :=
  match pos with
  | .pydict d => dgetD d "count" (.pyint 1)
  | _ => .pyint 1

/-- Using a value as the right operand of integer `+`: Python lets
`int` and `bool` through and raises `TypeError` otherwise. -/
def addCount : PyVal → Except String Int
  | .pyint n => .ok n
  | .pybool b => .ok (if b then 1 else 0)
  | _ => .error "TypeError: unsupported operand"

/-- `position_counts[pos_name] = position_counts.get(pos_name, 0) + count`. -/
def bumpCount (acc : List (String × Int)) (k : String) (c : Int) :
    List (String × Int) :=
  dset acc k (dgetD acc k 0 + c)

/-- The `for pos in roster_positions` accumulation loop (lines 183–191):
bench/IR names are filtered out before counting; a non-string position
name raises at `.upper()`, a non-integer count raises at `+`. -/
def buildCounts : List PyVal → List (String × Int) →
    Except String (List (String × Int))
  | [], acc => .ok acc
  | pos :: rest, acc =>
      match posEntryName pos with
      | .pystr pname =>
          if strUpper pname ∈ benchNames then
            buildCounts rest acc
          else
            match addCount (posEntryCount pos) with
            | .ok c => buildCounts rest (bumpCount acc pname c)
            | .error e => .error e
      | _ => .error "AttributeError: upper"

/-- Code-point lexicographic string order, as used by Python `sorted`
on the distinct keys of `position_counts.items()`. -/
def charsLe : List Char → List Char → Bool
  | [], _ => true
  | _ :: _, [] => false
  | a :: as, b :: bs => if a = b then charsLe as bs else decide (a < b)

/-- Ordered insertion by key for the `sorted(position_counts.items())`
model. -/
def insertByKey (x : String × Int) : List (String × Int) →
    List (String × Int)
  | [] => [x]
  | y :: t => if charsLe x.1.data y.1.data then x :: y :: t else y :: insertByKey x t

/-- `sorted(position_counts.items())` (keys are distinct, so comparison
never reaches the counts). -/
def sortCounts (l : List (String × Int)) : List (String × Int) :=
  l.foldr insertByKey []

/-- The note appended after a SUPERFLEX/OP line. -/
def superflexNote : String := "    ⚠️ SUPERFLEX: QBs are MUCH more valuable!\n"

/-- One rendered roster line `  - {pos}: {count}`. -/
def countLine (p : String) (c : Int) : String :=
  "  - " ++ p ++ ": " ++ toString c ++ "\n"

/-- The rendering loop over `sorted(position_counts.items())`
(lines 193–196). -/
def renderCountLines : List (String × Int) → String
  | [] => ""
  | (p, c) :: t =>
      countLine p c ++
      (if strUpper p ∈ superNames then superflexNote else "") ++
      renderCountLines t

/-- The scoring-implication line chosen from the lowered scoring type
(lines 169–175). -/
def implLine (scoringLower : String) : String :=
  if containsStr scoringLower "ppr" then
    "⚠️ PPR League: Pass-catching players are MORE valuable\n"
  else if containsStr scoringLower "half" then
    "⚠️ Half-PPR League: Pass-catchers get moderate boost\n"
  else
    "→ Standard scoring: TD-dependent players prioritized\n"

/-- The roster-positions section (lines 177–196): present only when
`roster_positions` is truthy, itemized only when it is a list. -/
def posSectionOf (rp : PyVal) : Except String String :=
  if pyTruthy rp then
    match rp with
    | .pylist xs =>
        match buildCounts xs [] with
        | .ok counts =>
            .ok ("\nRoster Positions:\n" ++ renderCountLines (sortCounts counts))
        | .error e => .error e
    | _ => .ok "\nRoster Positions:\n"
  else .ok ""

/-- The body of `format_rules_for_agent` applied to a stored record.
`rules.get('league_name', league_id)` and the other lookups always find
their key because `normalizeRules` sets every field, so the record fields
are used directly.  A non-string `scoring_type` raises at `.lower()`
(line 169); roster counting may raise as described at `buildCounts`. -/
def formatRecord (r : StoredRules) : Except String String :=
  match r.scoring_type with
  | .pystr sc =>
      match posSectionOf r.roster_positions with
      | .ok posSection =>
          .ok ("\n=== LEAGUE RULES (League: " ++ pyToStr r.league_name ++
            ") ===\n" ++ "Scoring Type: " ++ pyToStr r.scoring_type ++ "\n" ++
            implLine (strLower sc) ++ posSection ++ "\n")
      | .error e => .error e
  | _ => .error "AttributeError: lower"

/-- `format_rules_for_agent` (lines 152–199): empty string when no rules
are stored (the stored dicts are never empty, so truthiness of the lookup
result coincides with presence). -/
def format_rules_for_agent (st : MemState) (league_id : String) :
    Except String String :=
  match get_league_rules st league_id with
  | none => .ok ""
  | some r => formatRecord r

/-! ## Process Launch Configurator — `app/agent.py` lines 161–246 -/

/-- One server entry of the multi-server descriptor document
(`mcp_config.json`): command, positional args, optional working
directory, declared environment. -/
structure ServerConfig where
  command : String
  args : List String
  cwd : Option String
  env : List (String × String)

/-- The resolved, ready-to-launch descriptor handed to
`StdioServerParameters`, plus the warnings logged during resolution. -/
structure ResolvedServer where
  command : String
  args : List String
  env : List (String × String)
  warnings : List String

/-- `value.startswith("${") and value.endswith("}")` (line 195). -/
def isPlaceholder (v : String) : Bool :=
  strStarts v "$\x7b" && strEnds v "\x7d"

/-- `env_var_name = value[2:-1]` (line 196). -/
def placeName (v : String) : String := ⟨(v.data.drop 2).dropLast⟩

/-- The warning logged for an unresolved placeholder (line 202). -/
def warnMsg (name key : String) : String :=
  "Environment variable " ++ name ++ " not found, skipping " ++ key

/-- One iteration of the `for key, value in config_env.items()` loop
(lines 193–206): placeholders substitute the ambient value or drop the
key with a warning; literal values are taken only when the ambient
environment does not define the key. -/
def resolveEnvStep (ambient : List (String × String))
    (acc : List (String × String) × List String) (kv : String × String) :
    List (String × String) × List String :=
  if isPlaceholder kv.2 then
    match dget ambient (placeName kv.2) with
    | some envValue => (dset acc.1 kv.1 envValue, acc.2)
    | none => (acc.1, acc.2 ++ [warnMsg (placeName kv.2) kv.1])
  else
    match dget ambient kv.1 with
    | none => (dset acc.1 kv.1 kv.2, acc.2)
    | some _ => (acc.1, acc.2)

/-- The whole env-entry resolution loop: the computed `yahoo_env`
overrides together with the warnings emitted along the way. -/
def resolveEnvOverrides (cfgEnv ambient : List (String × String)) :
    List (String × String) × List String :=
  cfgEnv.foldl (resolveEnvStep ambient) ([], [])

/-- `os.path.join(cwd, s)` for the POSIX paths the config uses. -/
def joinPath (c s : String) : String :=
  if strStarts s "/" then s else c ++ "/" ++ s

/-- `os.path.abspath(p)`: prepends the process working directory when
`p` is relative (path normalization of `.`/`..` is irrelevant here and
not modelled). -/
def absPath (cwd0 p : String) : String :=
  if strStarts p "/" then p else cwd0 ++ "/" ++ p

/-- `os.path.dirname(p)`: everything before the last slash. -/
def dirname (p : String) : String :=
  ⟨((p.data.reverse.dropWhile (fun c => c ≠ '/')).drop 1).reverse⟩

/-- `cwd = yahoo_config.get('cwd', os.getcwd())`, with the `"${PWD}"`
sentinel expanded to the process working directory (lines 176–178). -/
def cwdOf (cfg : ServerConfig) (cwd0 : String) : String :=
  match cfg.cwd with
  | none => cwd0
  | some c => if c = "$\x7bPWD\x7d" then cwd0 else c

/-- `script_name = yahoo_config.get('args', [])[0] if
yahoo_config.get('args') else None`, combined with the `if script_name:`
truthiness test: an empty args list or an empty first argument means no
script. -/
def scriptNameOf (args : List String) : Option String :=
  match args with
  | [] => none
  | a :: _ => if a = "" then none else some a

/-- `os.pathsep` on the POSIX hosts the launcher targets. -/
def pathsep : String := ":"

/-- `final_env = os.environ.copy(); final_env.update(yahoo_env)`
(lines 236–237): overrides win for every key they define. -/
def envUpdate (base ov : List (String × String)) : List (String × String) :=
  ov.foldl (fun b kv => dset b kv.1 kv.2) base

/-- The per-server resolution performed in `FantasyFootballAgent.__init__`
for the Yahoo server (lines 176–246): resolve env entries, then — when a
script argument is present — rewrite the first argument to the absolute
script path and force the script directory onto the front of
`PYTHONPATH`, and finally layer the overrides on the ambient
environment. -/
def resolveServer (cfg : ServerConfig) (ambient : List (String × String))
    (cwd0 : String) : ResolvedServer :=
  let cwd := cwdOf cfg cwd0
  match scriptNameOf cfg.args with
  | some sname =>
      let scriptPath := absPath cwd0 (joinPath cwd sname)
      let scriptDir := dirname scriptPath
      let ov := resolveEnvOverrides cfg.env ambient
      let existing := dgetD ov.1 "PYTHONPATH" ""
      let ov₁ := dset ov.1 "PYTHONPATH"
        (if existing ≠ "" then scriptDir ++ pathsep ++ existing else scriptDir)
      { command := cfg.command
        args := scriptPath :: cfg.args.tail
        env := envUpdate ambient ov₁
        warnings := ov.2 }
  | none =>
      let ov := resolveEnvOverrides cfg.env ambient
      { command := cfg.command
        args := cfg.args
        env := envUpdate ambient ov.1
        warnings := ov.2 }

/-! ## `FantasyFootballAgent.__init__` — the store-construction call -/

/-- The keyword parameters `LeagueRulesMemory.__init__` accepts
(`league_memory.py` line 19): only `storage_dir`. -/
def leagueRulesMemoryKwparams : List String := ["storage_dir"]

/-- CPython keyword-call semantics: a call raises `TypeError` before the
body runs whenever a passed keyword is not an accepted parameter. -/
def pyCallKwargsOk (accepted passed : List String) : Bool :=
  passed.all (fun k => accepted.contains k)

/-- Calling `LeagueRulesMemory(...)` with the given keyword-argument
names: on success the constructor would yield the store loaded from disk
(`loaded`); with an unexpected keyword it raises `TypeError` instead. -/
def callLeagueRulesMemory (loaded : MemState) (kwargs : List String) :
    Except String MemState :=
  if pyCallKwargsOk leagueRulesMemoryKwparams kwargs then
    .ok loaded
  else
    .error "TypeError: unexpected keyword argument"

/-- The prefix of `FantasyFootballAgent.__init__` (lines 107–132) up to
and including the Settings Store construction.  The memory-service
selection and league-id lookup (lines 110–126) cannot raise — the
league-id access is wrapped in `try/except` — so the first fallible step
is the call `LeagueRulesMemory(memory_service=..., app_name=...)` at
lines 129–132, modelled by its keyword-argument names. -/
def fantasyFootballAgentInit (memoryServiceProvided : Bool)
    (leagueId : Option String) (loaded : MemState) : Except String MemState :=
  let _ := memoryServiceProvided
  let _ := leagueId
  callLeagueRulesMemory loaded ["memory_service", "app_name"]

/-! ## Workflow Progress Tracker — `app/agent.py` lines 382–482 -/

/-- The five workflow phases stored in `task_step`. -/
inductive TaskStep where
  | initializing
  | gathering_data
  | analyzing
  | executing_actions
  | completing
deriving DecidableEq

/-- Position of a phase along the intended progression order. -/
def stepIdx : TaskStep → Nat
  | .initializing => 0
  | .gathering_data => 1
  | .analyzing => 2
  | .executing_actions => 3
  | .completing => 4

/-- The session-scoped tracker state.  `inited` models the presence of
the `'temp:task_step'` key in `context.state`; the code writes each value
under both a `temp:`-prefixed and a plain key, always equal, so a single
field per value suffices.  `has_browser_actions` is only ever written by
the after-callback (the before-callback never initializes it; the Python
`.get` of a missing key is falsy, matching the `false` default). -/
structure WState where
  inited : Bool
  task_step : TaskStep
  data_gathered : List String
  has_league_rules : Bool
  has_roster : Bool
  has_matchup : Bool
  has_browser_actions : Bool
  task_complete : Bool
deriving DecidableEq

/-- The defaults installed on the first invocation of a session. -/
def freshWState : WState :=
  { inited := false
    task_step := .initializing
    data_gathered := []
    has_league_rules := false
    has_roster := false
    has_matchup := false
    has_browser_actions := false
    task_complete := false }

/-- `_track_workflow_state_before` (lines 382–408): installs the default
state exactly when `'temp:task_step'` is absent; otherwise a no-op. -/
def track_workflow_state_before (s : WState) : WState :=
  if s.inited then s else { freshWState with inited := true }

/-- `if tag not in data_gathered: data_gathered.append(tag)`. -/
def addTag (l : List String) (t : String) : List String :=
  if t ∈ l then l else l ++ [t]

/-- League-rules retrieval indicator (line 435). -/
def leagueRulesIndicator (e : String) : Bool :=
  containsStr e "get_stored_league_rules" ||
  containsStr e "discover_and_store_league_rules"

/-- Roster retrieval indicator (line 444). -/
def rosterIndicator (e : String) : Bool :=
  containsStr e "yahoo_ff_get_roster" || containsStr e "get_roster"

/-- Matchup retrieval indicator (line 453). -/
def matchupIndicator (e : String) : Bool :=
  containsStr e "yahoo_ff_get_matchup" || containsStr e "get_matchup"

/-- Browser mutation-action indicator (line 462). -/
def browserIndicator (e : String) : Bool :=
  containsStr e "browser_" &&
  (containsStr e "navigate" || containsStr e "click" || containsStr e "drag")

/-- The league-rules if-block (lines 435–441). -/
def detectRules (s : WState) (e : String) : WState :=
  if leagueRulesIndicator e then
    { s with has_league_rules := true
             data_gathered := addTag s.data_gathered "league_rules" }
  else s

/-- The roster if-block (lines 444–450). -/
def detectRoster (s : WState) (e : String) : WState :=
  if rosterIndicator e then
    { s with has_roster := true
             data_gathered := addTag s.data_gathered "roster" }
  else s

/-- The matchup if-block (lines 453–459). -/
def detectMatchup (s : WState) (e : String) : WState :=
  if matchupIndicator e then
    { s with has_matchup := true
             data_gathered := addTag s.data_gathered "matchup" }
  else s

/-- The browser-actions if-block (lines 462–463). -/
def detectBrowser (s : WState) (e : String) : WState :=
  if browserIndicator e then { s with has_browser_actions := true } else s

/-- Processing of one event of the trailing window (lines 429–463):
`event_str = str(event).lower()` followed by the four keyword checks in
order, each only ever setting a flag or appending a tag. -/
def detectEvent (s : WState) (ev : String) : WState :=
  let e := strLower ev
  detectBrowser (detectMatchup (detectRoster (detectRules s e) e) e) e

/-- The `current_step` dispatch (lines 466–482): an `if/elif` chain keyed
on the step read once before any update. -/
def stepUpdate (s : WState) : WState :=
  match s.task_step with
  | .initializing =>
      if s.has_league_rules then { s with task_step := .gathering_data } else s
  | .gathering_data =>
      if s.has_league_rules && s.has_roster then
        { s with task_step := .analyzing }
      else s
  | .analyzing =>
      if s.has_browser_actions then
        { s with task_step := .executing_actions }
      else s
  | .executing_actions =>
      if s.has_browser_actions then { s with task_step := .completing } else s
  | .completing => s

/-- `context.events[-5:]`. -/
def lastFive (events : List String) : List String :=
  events.drop (events.length - 5)

/-- `for event in reversed(context.events[-5:])`, folded over the state. -/
def detectWindow (events : List String) (s : WState) : WState :=
  ((lastFive events).reverse).foldl detectEvent s

/-- `_track_workflow_state_after` (lines 410–482): everything, including
the step dispatch, is guarded by `if context.events:`. -/
def track_workflow_state_after (events : List String) (s : WState) : WState :=
  if events.isEmpty then s else stepUpdate (detectWindow events s)

/-- One interaction round of a session: the before-callback followed by
the after-callback over that round's event window. -/
def trackRound (events : List String) (s : WState) : WState :=
  track_workflow_state_after events (track_workflow_state_before s)

/-! ## Association-list dictionary lemmas -/

theorem dget_dset_self {α : Type} (d : List (String × α)) (k : String) (v : α) :
    dget (dset d k v) k = some v := by
  induction d with
  | nil => simp [dget, dset]
  | cons hd t ih =>
      obtain ⟨k₁, v₁⟩ := hd
      by_cases h : k₁ = k
      · simp [dget, dset, h]
      · simp [dget, dset, h, ih]

theorem dget_dset_ne {α : Type} (d : List (String × α)) (k k₂ : String) (v : α)
    (h : k₂ ≠ k) : dget (dset d k v) k₂ = dget d k₂ := by
  induction d with
  | nil =>
      have hne : ¬ (k = k₂) := fun hh => h hh.symm
      simp only [dset, dget]
      rw [if_neg hne]
  | cons hd t ih =>
      obtain ⟨k₁, v₁⟩ := hd
      by_cases h₁ : k₁ = k
      · subst h₁
        have hne : ¬ (k₁ = k₂) := fun hh => h hh.symm
        simp only [dset, if_pos rfl, dget, if_neg hne]
      · simp only [dset, if_neg h₁, dget]
        by_cases h₂ : k₁ = k₂
        · rw [if_pos h₂, if_pos h₂]
        · rw [if_neg h₂, if_neg h₂]
          exact ih

/-- The keys of an association list. -/
def keysOf {α : Type} (d : List (String × α)) : List String := d.map Prod.fst

theorem dget_eq_none_of_not_mem {α : Type} (d : List (String × α)) (k : String)
    (h : k ∉ keysOf d) : dget d k = none := by
  induction d with
  | nil => rfl
  | cons hd t ih =>
      obtain ⟨k₁, v₁⟩ := hd
      have hm : ¬ (k = k₁ ∨ k ∈ keysOf t) := by
        intro hc
        exact h (by
          show k ∈ k₁ :: keysOf t
          exact List.mem_cons.mpr hc)
      push_neg at hm
      have hne : ¬ (k₁ = k) := fun hh => hm.1 hh.symm
      simp only [dget, if_neg hne]
      exact ih hm.2

theorem mem_keysOf_of_dget {α : Type} (d : List (String × α)) (k : String)
    (h : dget d k ≠ none) : k ∈ keysOf d := by
  induction d with
  | nil => simp [dget] at h
  | cons hd t ih =>
      obtain ⟨k₁, v₁⟩ := hd
      by_cases h₁ : k₁ = k
      · subst h₁
        show k₁ ∈ k₁ :: keysOf t
        exact List.mem_cons_self _ _
      · simp only [dget, if_neg h₁] at h
        show k ∈ k₁ :: keysOf t
        exact List.mem_cons_of_mem _ (ih h)

theorem keysOf_dset_mem {α : Type} (d : List (String × α)) (k : String) (v : α)
    (h : k ∈ keysOf d) : keysOf (dset d k v) = keysOf d := by
  induction d with
  | nil => simp [keysOf] at h
  | cons hd t ih =>
      obtain ⟨k₁, v₁⟩ := hd
      by_cases h₁ : k₁ = k
      · simp only [dset, if_pos h₁]
        rfl
      · have hm : k ∈ keysOf t := by
          rcases List.mem_cons.mp (show k ∈ k₁ :: keysOf t from h) with hc | hc
          · exact absurd hc.symm h₁
          · exact hc
        simp only [dset, if_neg h₁]
        show k₁ :: keysOf (dset t k v) = k₁ :: keysOf t
        rw [ih hm]

theorem keysOf_dset_not_mem {α : Type} (d : List (String × α)) (k : String) (v : α)
    (h : k ∉ keysOf d) : keysOf (dset d k v) = keysOf d ++ [k] := by
  induction d with
  | nil => rfl
  | cons hd t ih =>
      obtain ⟨k₁, v₁⟩ := hd
      have h₁ : ¬ k₁ = k := by
        intro hh
        exact h (by
          show k ∈ k₁ :: keysOf t
          exact List.mem_cons.mpr (Or.inl hh.symm))
      have hm : k ∉ keysOf t := by
        intro hc
        exact h (by
          show k ∈ k₁ :: keysOf t
          exact List.mem_cons.mpr (Or.inr hc))
      simp only [dset, if_neg h₁]
      show k₁ :: keysOf (dset t k v) = (k₁ :: keysOf t) ++ [k]
      rw [ih hm]
      rfl

theorem nodup_keysOf_dset {α : Type} (d : List (String × α)) (k : String) (v : α)
    (h : (keysOf d).Nodup) : (keysOf (dset d k v)).Nodup := by
  by_cases hm : k ∈ keysOf d
  · rw [keysOf_dset_mem d k v hm]; exact h
  · rw [keysOf_dset_not_mem d k v hm]
    simp [List.nodup_append, h, hm]

theorem mem_dset {α : Type} (d : List (String × α)) (k : String) (v : α)
    (p : String × α) (h : p ∈ dset d k v) : p.1 = k ∨ p ∈ d := by
  induction d with
  | nil =>
      have hp : p = (k, v) := by simpa [dset] using h
      left; rw [hp]
  | cons hd t ih =>
      obtain ⟨k₁, v₁⟩ := hd
      by_cases hkk : k₁ = k
      · simp only [dset, if_pos hkk] at h
        rcases List.mem_cons.mp h with hc | hc
        · left; rw [hc, hkk]
        · right; exact List.mem_cons_of_mem _ hc
      · simp only [dset, if_neg hkk] at h
        rcases List.mem_cons.mp h with hc | hc
        · right; exact hc ▸ List.mem_cons_self _ _
        · rcases ih hc with hc₂ | hc₂
          · left; exact hc₂
          · right; exact List.mem_cons_of_mem _ hc₂

/-! ## C1–C4: League Settings Store and agent construction -/

/-- C1 (code_bug evidence): the boolean returned by `store_league_rules`
never depends on the outcome of the synchronous local write — the write
exception is swallowed inside `_save_memory`, so the `except` clause of
`store_league_rules` is unreachable for storage errors.  In particular a
failed local write of `{}` still returns `True`, and conversely
`{'roster_positions': 5}` returns `False` even when the local write
succeeds, because `len(roster_positions)` raises `TypeError` at the
logging line 93.  The spec ("Write failure: `put` returns `false`") and
the method docstring ("True if successfully stored, False otherwise")
require `False` exactly on a failed local write. -/
theorem store_returns_true_despite_write_failure (st : MemState)
    (league_id : String) (league_info : PyDict) :
    (store_league_rules st false league_id league_info).2 =
      (store_league_rules st true league_id league_info).2 ∧
    (store_league_rules st false league_id []).2 = true ∧
    (store_league_rules st false league_id []).1 =
      ⟨dset st.memory league_id (normalizeRules league_id [])⟩ ∧
    (store_league_rules st true league_id
      [("roster_positions", .pyint 5)]).2 = false := by
  exact ⟨rfl, rfl, rfl, rfl⟩

/-- C2: read-your-writes — after `put(league_id, raw)`, a `get(league_id)`
on the same thread returns the freshly normalized record, whose
`raw_data` field is exactly `raw`. -/
theorem put_then_get_returns_raw (st : MemState) (writeOk : Bool)
    (league_id : String) (raw : PyDict) :
    get_league_rules (store_league_rules st writeOk league_id raw).1 league_id =
      some (normalizeRules league_id raw) ∧
    (normalizeRules league_id raw).raw_data = raw := by
  refine ⟨?_, rfl⟩
  unfold get_league_rules store_league_rules
  exact dget_dset_self _ _ _

/-- C3: normalization is total (a plain Lean function of every raw dict),
fills the semantic defaults for missing input — `"Unknown"` scoring type,
empty containers for roster positions, scoring settings and position
eligibility — keeps present values unchanged, and retains the raw input
verbatim as the record's `raw_data` field. -/
theorem normalize_defaults_and_raw_verbatim (league_id : String) (raw : PyDict) :
    (normalizeRules league_id raw).raw_data = raw ∧
    (dget raw "scoring_type" = none →
      (normalizeRules league_id raw).scoring_type = .pystr "Unknown") ∧
    (dget raw "roster_positions" = none →
      (normalizeRules league_id raw).roster_positions = .pylist []) ∧
    (dget raw "scoring_settings" = none →
      (normalizeRules league_id raw).scoring_settings = .pydict []) ∧
    (dget raw "position_eligibility" = none →
      (normalizeRules league_id raw).position_eligibility = .pydict []) ∧
    (∀ v, dget raw "scoring_type" = some v →
      (normalizeRules league_id raw).scoring_type = v) ∧
    (∀ v, dget raw "roster_positions" = some v →
      (normalizeRules league_id raw).roster_positions = v) := by
  refine ⟨rfl, ?_, ?_, ?_, ?_, ?_, ?_⟩ <;>
    first
      | (intro h; simp [normalizeRules, dgetD, h])
      | (intro v h; simp [normalizeRules, dgetD, h])

/-- Witness for C3 at a concrete empty raw dict. -/
theorem normalize_defaults_witness :
    (normalizeRules "123" []).raw_data = [] ∧
    (normalizeRules "123" []).scoring_type = .pystr "Unknown" ∧
    (normalizeRules "123" []).roster_positions = .pylist [] := by
  have h := normalize_defaults_and_raw_verbatim "123" []
  exact ⟨h.1, h.2.1 rfl, h.2.2.1 rfl⟩

/-- C4: constructing `FantasyFootballAgent` always raises: the
constructor passes the keywords `memory_service` and `app_name` to
`LeagueRulesMemory`, whose `__init__` accepts only `storage_dir`, so for
every input CPython raises `TypeError` before the Settings Store is ever
constructed. -/
theorem agent_init_always_type_errors (memoryServiceProvided : Bool)
    (leagueId : Option String) (loaded : MemState) :
    fantasyFootballAgentInit memoryServiceProvided leagueId loaded =
      .error "TypeError: unexpected keyword argument" := rfl

/-! ## Configurator lemmas -/

theorem dget_ne_none_of_mem {α : Type} (d : List (String × α)) (k : String)
    (h : k ∈ keysOf d) : dget d k ≠ none := by
  induction d with
  | nil => simp [keysOf] at h
  | cons hd t ih =>
      obtain ⟨k₁, v₁⟩ := hd
      by_cases h₁ : k₁ = k
      · simp [dget, h₁]
      · rcases List.mem_cons.mp (show k ∈ k₁ :: keysOf t from h) with hc | hc
        · exact absurd hc.symm h₁
        · simp only [dget, if_neg h₁]
          exact ih hc

theorem not_mem_keysOf_of_dget_none {α : Type} (d : List (String × α))
    (k : String) (h : dget d k = none) : k ∉ keysOf d :=
  fun hm => dget_ne_none_of_mem d k hm h

theorem resolveEnvStep_dget_other (ambient : List (String × String))
    (acc : List (String × String) × List String) (kv : String × String)
    (k : String) (h : k ≠ kv.1) :
    dget (resolveEnvStep ambient acc kv).1 k = dget acc.1 k := by
  unfold resolveEnvStep
  by_cases hp : isPlaceholder kv.2
  · cases hd : dget ambient (placeName kv.2) with
    | none => simp [hp, hd]
    | some a => simp only [hp, hd, if_true]; exact dget_dset_ne _ _ _ _ h
  · cases hd : dget ambient kv.1 with
    | none => simp only [hp, hd, if_false]; exact dget_dset_ne _ _ _ _ h
    | some a => simp [hp, hd]

theorem fold_env_dget_not_mem (ambient : List (String × String))
    (l : List (String × String)) (acc : List (String × String) × List String)
    (k : String) (h : k ∉ keysOf l) :
    dget (l.foldl (resolveEnvStep ambient) acc).1 k = dget acc.1 k := by
  induction l generalizing acc with
  | nil => rfl
  | cons kv t ih =>
      have h₁ : k ≠ kv.1 := by
        intro hh
        exact h (by
          show k ∈ kv.1 :: keysOf t
          exact List.mem_cons.mpr (Or.inl hh))
      have h₂ : k ∉ keysOf t := by
        intro hh
        exact h (by
          show k ∈ kv.1 :: keysOf t
          exact List.mem_cons.mpr (Or.inr hh))
      rw [List.foldl_cons, ih _ h₂, resolveEnvStep_dget_other _ _ _ _ h₁]

theorem fold_env_warnings_mono (ambient : List (String × String))
    (l : List (String × String)) (acc : List (String × String) × List String) :
    ∃ w, (l.foldl (resolveEnvStep ambient) acc).2 = acc.2 ++ w := by
  induction l generalizing acc with
  | nil => exact ⟨[], (List.append_nil _).symm⟩
  | cons kv t ih =>
      rw [List.foldl_cons]
      obtain ⟨w, hw⟩ := ih (resolveEnvStep ambient acc kv)
      have hstep : ∃ w₀, (resolveEnvStep ambient acc kv).2 = acc.2 ++ w₀ := by
        unfold resolveEnvStep
        by_cases hp : isPlaceholder kv.2
        · cases hd : dget ambient (placeName kv.2) with
          | none => exact ⟨[warnMsg (placeName kv.2) kv.1], by simp [hp, hd]⟩
          | some a => exact ⟨[], by simp [hp, hd]⟩
        · cases hd : dget ambient kv.1 with
          | none => exact ⟨[], by simp [hp, hd]⟩
          | some a => exact ⟨[], by simp [hp, hd]⟩
      obtain ⟨w₀, hw₀⟩ := hstep
      exact ⟨w₀ ++ w, by rw [hw, hw₀, List.append_assoc]⟩

theorem fold_env_nodup (ambient : List (String × String))
    (l : List (String × String)) (acc : List (String × String) × List String)
    (h : (keysOf acc.1).Nodup) :
    (keysOf (l.foldl (resolveEnvStep ambient) acc).1).Nodup := by
  induction l generalizing acc with
  | nil => exact h
  | cons kv t ih =>
      rw [List.foldl_cons]
      refine ih _ ?_
      unfold resolveEnvStep
      by_cases hp : isPlaceholder kv.2
      · cases hd : dget ambient (placeName kv.2) with
        | none => simpa [hp, hd] using h
        | some a =>
            simp only [hp, hd, if_true]
            exact nodup_keysOf_dset _ _ _ h
      · cases hd : dget ambient kv.1 with
        | none =>
            simp only [hp, hd, if_false]
            exact nodup_keysOf_dset _ _ _ h
        | some a => simpa [hp, hd] using h

theorem fold_env_placeholder (ambient : List (String × String))
    (l : List (String × String)) (acc : List (String × String) × List String)
    (key v : String) (hnd : (keysOf l).Nodup) (hget : dget l key = some v)
    (hp : isPlaceholder v = true) (hacc : dget acc.1 key = none) :
    (∀ a, dget ambient (placeName v) = some a →
      dget (l.foldl (resolveEnvStep ambient) acc).1 key = some a) ∧
    (dget ambient (placeName v) = none →
      dget (l.foldl (resolveEnvStep ambient) acc).1 key = none ∧
      warnMsg (placeName v) key ∈ (l.foldl (resolveEnvStep ambient) acc).2) := by
  induction l generalizing acc with
  | nil => simp [dget] at hget
  | cons kv t ih =>
      obtain ⟨k₁, v₁⟩ := kv
      have hnd' : k₁ ∉ keysOf t ∧ (keysOf t).Nodup := by
        have := hnd
        simpa [keysOf, List.nodup_cons] using this
      by_cases hk : k₁ = key
      · subst hk
        have hv : v₁ = v := by
          simpa [dget] using hget
        subst hv
        rw [List.foldl_cons]
        constructor
        · intro a ha
          rw [fold_env_dget_not_mem _ _ _ _ hnd'.1]
          simp only [resolveEnvStep, hp, ha, if_true]
          exact dget_dset_self _ _ _
        · intro ha
          constructor
          · rw [fold_env_dget_not_mem _ _ _ _ hnd'.1]
            simpa [resolveEnvStep, hp, ha] using hacc
          · obtain ⟨w, hw⟩ := fold_env_warnings_mono ambient t
              (resolveEnvStep ambient acc (k₁, v₁))
            rw [hw]
            have : (resolveEnvStep ambient acc (k₁, v₁)).2 =
                acc.2 ++ [warnMsg (placeName v₁) k₁] := by
              simp [resolveEnvStep, hp, ha]
            rw [this]
            simp
      · have hget' : dget t key = some v := by
          simpa [dget, hk] using hget
        rw [List.foldl_cons]
        have hacc' : dget (resolveEnvStep ambient acc (k₁, v₁)).1 key = none := by
          rw [resolveEnvStep_dget_other _ _ _ _ (fun hh => hk hh.symm)]
          exact hacc
        exact ih _ hnd'.2 hget' hacc'

theorem fold_env_literal_skip (ambient : List (String × String))
    (l : List (String × String)) (acc : List (String × String) × List String)
    (key v a : String) (hnd : (keysOf l).Nodup) (hget : dget l key = some v)
    (hp : isPlaceholder v = false) (hamb : dget ambient key = some a)
    (hacc : dget acc.1 key = none) :
    dget (l.foldl (resolveEnvStep ambient) acc).1 key = none := by
  induction l generalizing acc with
  | nil => simp [dget] at hget
  | cons kv t ih =>
      obtain ⟨k₁, v₁⟩ := kv
      have hnd' : k₁ ∉ keysOf t ∧ (keysOf t).Nodup := by
        have := hnd
        simpa [keysOf, List.nodup_cons] using this
      by_cases hk : k₁ = key
      · subst hk
        have hv : v₁ = v := by
          simpa [dget] using hget
        subst hv
        rw [List.foldl_cons, fold_env_dget_not_mem _ _ _ _ hnd'.1]
        simpa [resolveEnvStep, hp, hamb] using hacc
      · have hget' : dget t key = some v := by
          simpa [dget, hk] using hget
        rw [List.foldl_cons]
        have hacc' : dget (resolveEnvStep ambient acc (k₁, v₁)).1 key = none := by
          rw [resolveEnvStep_dget_other _ _ _ _ (fun hh => hk hh.symm)]
          exact hacc
        exact ih _ hnd'.2 hget' hacc'

theorem envUpdate_dget_not_mem (base ov : List (String × String)) (k : String)
    (h : k ∉ keysOf ov) : dget (envUpdate base ov) k = dget base k := by
  induction ov generalizing base with
  | nil => rfl
  | cons kv t ih =>
      have h₁ : k ≠ kv.1 := by
        intro hh
        exact h (by
          show k ∈ kv.1 :: keysOf t
          exact List.mem_cons.mpr (Or.inl hh))
      have h₂ : k ∉ keysOf t := by
        intro hh
        exact h (by
          show k ∈ kv.1 :: keysOf t
          exact List.mem_cons.mpr (Or.inr hh))
      show dget (envUpdate (dset base kv.1 kv.2) t) k = dget base k
      rw [ih _ h₂]
      exact dget_dset_ne _ _ _ _ h₁

theorem envUpdate_dget_mem (base ov : List (String × String)) (k v : String)
    (hnd : (keysOf ov).Nodup) (h : dget ov k = some v) :
    dget (envUpdate base ov) k = some v := by
  induction ov generalizing base with
  | nil => simp [dget] at h
  | cons kv t ih =>
      obtain ⟨k₁, v₁⟩ := kv
      have hnd' : k₁ ∉ keysOf t ∧ (keysOf t).Nodup := by
        have := hnd
        simpa [keysOf, List.nodup_cons] using this
      by_cases hk : k₁ = k
      · subst hk
        have hv : v₁ = v := by
          simpa [dget] using h
        subst hv
        show dget (envUpdate (dset base k₁ v₁) t) k₁ = some v₁
        rw [envUpdate_dget_not_mem _ _ _ hnd'.1]
        exact dget_dset_self _ _ _
      · have h' : dget t k = some v := by
          simpa [dget, hk] using h
        show dget (envUpdate (dset base k₁ v₁) t) k = some v
        exact ih _ hnd'.2 h'

theorem str_append_empty (s : String) : s ++ "" = s := by
  apply String.ext
  rw [String.data_append]
  exact List.append_nil _

/-! ## C5–C7: Process Launch Configurator claims -/

/-- A descriptor with a script argument and a literal `PYTHONPATH` env
entry whose key the ambient environment also defines. -/
def c5cfg : ServerConfig :=
  { command := "python"
    args := ["server.py"]
    cwd := some "/w"
    env := [("PYTHONPATH", "lit")] }

/-- Ambient environment defining `PYTHONPATH`. -/
def c5ambient : List (String × String) := [("PYTHONPATH", "amb")]

/-- A descriptor with a script argument and a literal env entry under a
key other than the search-path variable. -/
def c5cfgB : ServerConfig :=
  { command := "python"
    args := ["x.py"]
    cwd := some "/w"
    env := [("FOO", "lit")] }

/-- Ambient environment defining `FOO`. -/
def c5ambientB : List (String × String) := [("FOO", "amb")]

/-- C5 (counterexample): with a literal `PYTHONPATH` entry whose key the
ambient environment defines and a script argument present, the final
resolved env does *not* keep the ambient value — `PYTHONPATH` is
overwritten with the computed script directory `/w`. -/
theorem literal_ambient_not_kept_counterexample :
    dget c5cfg.env "PYTHONPATH" = some "lit" ∧
    isPlaceholder "lit" = false ∧
    dget c5ambient "PYTHONPATH" = some "amb" ∧
    dget (resolveServer c5cfg c5ambient "/cwd").env "PYTHONPATH" = some "/w" ∧
    dget (resolveServer c5cfg c5ambient "/cwd").env "PYTHONPATH" ≠ some "amb" := by
  decide

/-- C5 (amended): a literal env entry whose key the ambient environment
already defines is never included in the overrides, and the final env
keeps the ambient value for that key — except for the search-path
variable `PYTHONPATH` when a script argument is present, in which case
the final env maps it to the computed script directory regardless of the
ambient value. -/
theorem literal_env_ambient_wins_except_pythonpath
    (cfg : ServerConfig) (ambient : List (String × String))
    (cwd0 key v a : String) (hnd : (keysOf cfg.env).Nodup)
    (hget : dget cfg.env key = some v) (hp : isPlaceholder v = false)
    (hamb : dget ambient key = some a) :
    dget (resolveEnvOverrides cfg.env ambient).1 key = none ∧
    (key ≠ "PYTHONPATH" →
      dget (resolveServer cfg ambient cwd0).env key = some a) ∧
    (scriptNameOf cfg.args = none →
      dget (resolveServer cfg ambient cwd0).env key = some a) ∧
    (∀ s, scriptNameOf cfg.args = some s → key = "PYTHONPATH" →
      dget (resolveServer cfg ambient cwd0).env key =
        some (dirname (absPath cwd0 (joinPath (cwdOf cfg cwd0) s)))) := by
  have hov : dget (resolveEnvOverrides cfg.env ambient).1 key = none :=
    fold_env_literal_skip ambient cfg.env ([], []) key v a hnd hget hp hamb rfl
  have hovnd : (keysOf (resolveEnvOverrides cfg.env ambient).1).Nodup :=
    fold_env_nodup ambient cfg.env ([], []) (by simp [keysOf])
  refine ⟨hov, ?_, ?_, ?_⟩
  · intro hkey
    cases hs : scriptNameOf cfg.args with
    | some s =>
        simp only [resolveServer, hs]
        have h₁ : dget (dset (resolveEnvOverrides cfg.env ambient).1 "PYTHONPATH"
            (if dgetD (resolveEnvOverrides cfg.env ambient).1 "PYTHONPATH" "" ≠ "" then
              dirname (absPath cwd0 (joinPath (cwdOf cfg cwd0) s)) ++ pathsep ++
                dgetD (resolveEnvOverrides cfg.env ambient).1 "PYTHONPATH" ""
            else dirname (absPath cwd0 (joinPath (cwdOf cfg cwd0) s)))) key = none := by
          rw [dget_dset_ne _ _ _ _ hkey]
          exact hov
        rw [envUpdate_dget_not_mem _ _ _ (not_mem_keysOf_of_dget_none _ _ h₁)]
        exact hamb
    | none =>
        simp only [resolveServer, hs]
        rw [envUpdate_dget_not_mem _ _ _ (not_mem_keysOf_of_dget_none _ _ hov)]
        exact hamb
  · intro hs
    simp only [resolveServer, hs]
    rw [envUpdate_dget_not_mem _ _ _ (not_mem_keysOf_of_dget_none _ _ hov)]
    exact hamb
  · intro s hs hkey
    subst hkey
    simp only [resolveServer, hs]
    have hex : dgetD (resolveEnvOverrides cfg.env ambient).1 "PYTHONPATH" "" = "" := by
      rw [dgetD, hov]
      rfl
    rw [hex]
    have hif : (if ("" : String) ≠ "" then
        dirname (absPath cwd0 (joinPath (cwdOf cfg cwd0) s)) ++ pathsep ++ ""
      else dirname (absPath cwd0 (joinPath (cwdOf cfg cwd0) s))) =
        dirname (absPath cwd0 (joinPath (cwdOf cfg cwd0) s)) := by simp
    rw [hif]
    exact envUpdate_dget_mem _ _ _ _ (nodup_keysOf_dset _ _ _ hovnd)
      (dget_dset_self _ _ _)

/-- Witness for C5 (amended) at the concrete counterexample inputs: with
a script and key `PYTHONPATH` the final env holds the script directory;
with key `FOO` the ambient value survives the whole resolution. -/
theorem literal_env_ambient_wins_witness :
    dget (resolveEnvOverrides c5cfg.env c5ambient).1 "PYTHONPATH" = none ∧
    dget (resolveServer c5cfg c5ambient "/cwd").env "PYTHONPATH" =
      some (dirname (absPath "/cwd" (joinPath (cwdOf c5cfg "/cwd") "server.py"))) ∧
    dget (resolveServer c5cfgB c5ambientB "/cwd").env "FOO" = some "amb" := by
  have h := literal_env_ambient_wins_except_pythonpath c5cfg c5ambient "/cwd"
    "PYTHONPATH" "lit" "amb" (by decide) (by decide) (by decide) (by decide)
  have hB := literal_env_ambient_wins_except_pythonpath c5cfgB c5ambientB "/cwd"
    "FOO" "lit" "amb" (by decide) (by decide) (by decide) (by decide)
  exact ⟨h.1, h.2.2.2 "server.py" (by decide) rfl, hB.2.1 (by decide)⟩

/-- C6: for a declared env entry whose value is a `${NAME}` placeholder,
the resolution loop substitutes the ambient value of `NAME` when present
(and, off the special-cased search-path key, that value reaches the
final env); when `NAME` is absent the key is omitted from the resolved
overrides, the warning is logged, and resolution continues. -/
theorem placeholder_env_resolution
    (cfg : ServerConfig) (ambient : List (String × String)) (cwd0 key v : String)
    (hnd : (keysOf cfg.env).Nodup) (hget : dget cfg.env key = some v)
    (hp : isPlaceholder v = true) :
    (∀ a, dget ambient (placeName v) = some a →
      dget (resolveEnvOverrides cfg.env ambient).1 key = some a ∧
      (key ≠ "PYTHONPATH" →
        dget (resolveServer cfg ambient cwd0).env key = some a)) ∧
    (dget ambient (placeName v) = none →
      dget (resolveEnvOverrides cfg.env ambient).1 key = none ∧
      warnMsg (placeName v) key ∈ (resolveServer cfg ambient cwd0).warnings) := by
  have hmain := fold_env_placeholder ambient cfg.env ([], []) key v hnd hget hp rfl
  have hovnd : (keysOf (resolveEnvOverrides cfg.env ambient).1).Nodup :=
    fold_env_nodup ambient cfg.env ([], []) (by simp [keysOf])
  constructor
  · intro a ha
    have hov : dget (resolveEnvOverrides cfg.env ambient).1 key = some a :=
      hmain.1 a ha
    refine ⟨hov, ?_⟩
    intro hkey
    cases hs : scriptNameOf cfg.args with
    | some s =>
        simp only [resolveServer, hs]
        refine envUpdate_dget_mem _ _ _ _ (nodup_keysOf_dset _ _ _ hovnd) ?_
        rw [dget_dset_ne _ _ _ _ hkey]
        exact hov
    | none =>
        simp only [resolveServer, hs]
        exact envUpdate_dget_mem _ _ _ _ hovnd hov
  · intro ha
    have h₂ := hmain.2 ha
    refine ⟨h₂.1, ?_⟩
    have hwarn : (resolveServer cfg ambient cwd0).warnings =
        (resolveEnvOverrides cfg.env ambient).2 := by
      cases hs : scriptNameOf cfg.args with
      | some s => simp [resolveServer, hs]
      | none => simp [resolveServer, hs]
    rw [hwarn]
    exact h₂.2

/-- A descriptor declaring one placeholder env entry. -/
def c6cfg : ServerConfig :=
  { command := "node"
    args := []
    cwd := none
    env := [("KEY", "$\x7bFOO\x7d")] }

/-- Witness for C6: with ambient `FOO=bar` the overrides map `KEY` to
`bar` and it survives to the final env; with an empty ambient the key is
omitted and the warning is logged. -/
theorem placeholder_env_resolution_witness :
    dget (resolveEnvOverrides c6cfg.env [("FOO", "bar")]).1 "KEY" = some "bar" ∧
    dget (resolveServer c6cfg [("FOO", "bar")] "/cwd").env "KEY" = some "bar" ∧
    dget (resolveEnvOverrides c6cfg.env []).1 "KEY" = none ∧
    warnMsg (placeName "$\x7bFOO\x7d") "KEY" ∈
      (resolveServer c6cfg [] "/cwd").warnings := by
  have h₁ := placeholder_env_resolution c6cfg [("FOO", "bar")] "/cwd" "KEY"
    "$\x7bFOO\x7d" (by decide) (by decide) (by decide)
  have h₂ := placeholder_env_resolution c6cfg [] "/cwd" "KEY"
    "$\x7bFOO\x7d" (by decide) (by decide) (by decide)
  have hsome := h₁.1 "bar" (by decide)
  have hnone := h₂.2 (by decide)
  exact ⟨hsome.1, hsome.2 (by decide), hnone.1, hnone.2⟩

/-- C7: with a (non-empty) first positional script argument, `resolve`
rewrites that argument to the absolute script path computed from the
configured working directory, leaves the remaining arguments untouched,
and the final `PYTHONPATH` always has the script directory as its prefix
segment, concatenated with (not discarding) any `PYTHONPATH` value
already resolved from the descriptor's own env entries; with no script
argument the arguments pass through unchanged and no search-path
computation occurs. -/
theorem script_arg_rewrite_and_pythonpath
    (cfg : ServerConfig) (ambient : List (String × String)) (cwd0 : String) :
    (∀ s rest, cfg.args = s :: rest → s ≠ "" →
      (resolveServer cfg ambient cwd0).args =
        absPath cwd0 (joinPath (cwdOf cfg cwd0) s) :: rest ∧
      (∃ t₀, dget (resolveServer cfg ambient cwd0).env "PYTHONPATH" =
        some (dirname (absPath cwd0 (joinPath (cwdOf cfg cwd0) s)) ++ t₀)) ∧
      (∀ ex, dget (resolveEnvOverrides cfg.env ambient).1 "PYTHONPATH" = some ex →
        ex ≠ "" →
        dget (resolveServer cfg ambient cwd0).env "PYTHONPATH" =
          some (dirname (absPath cwd0 (joinPath (cwdOf cfg cwd0) s)) ++
            pathsep ++ ex))) ∧
    (scriptNameOf cfg.args = none →
      (resolveServer cfg ambient cwd0).args = cfg.args ∧
      (resolveServer cfg ambient cwd0).env =
        envUpdate ambient (resolveEnvOverrides cfg.env ambient).1) := by
  have hovnd : (keysOf (resolveEnvOverrides cfg.env ambient).1).Nodup :=
    fold_env_nodup ambient cfg.env ([], []) (by simp [keysOf])
  constructor
  · intro s rest hargs hs0
    have hsn : scriptNameOf cfg.args = some s := by
      rw [hargs]
      simp [scriptNameOf, hs0]
    have hfinal : dget (resolveServer cfg ambient cwd0).env "PYTHONPATH" =
        some (if dgetD (resolveEnvOverrides cfg.env ambient).1 "PYTHONPATH" "" ≠ "" then
          dirname (absPath cwd0 (joinPath (cwdOf cfg cwd0) s)) ++ pathsep ++
            dgetD (resolveEnvOverrides cfg.env ambient).1 "PYTHONPATH" ""
        else dirname (absPath cwd0 (joinPath (cwdOf cfg cwd0) s))) := by
      simp only [resolveServer, hsn]
      exact envUpdate_dget_mem _ _ _ _ (nodup_keysOf_dset _ _ _ hovnd)
        (dget_dset_self _ _ _)
    refine ⟨?_, ?_, ?_⟩
    · simp only [resolveServer, hsn]
      rw [hargs]
      rfl
    · rw [hfinal]
      by_cases hex : dgetD (resolveEnvOverrides cfg.env ambient).1 "PYTHONPATH" "" ≠ ""
      · exact ⟨pathsep ++ dgetD (resolveEnvOverrides cfg.env ambient).1 "PYTHONPATH" "",
          by rw [if_pos hex, String.append_assoc]⟩
      · exact ⟨"", by rw [if_neg hex, str_append_empty]⟩
    · intro ex hexv hex0
      have hd : dgetD (resolveEnvOverrides cfg.env ambient).1 "PYTHONPATH" "" = ex := by
        rw [dgetD, hexv]
        rfl
      rw [hfinal, hd, if_pos hex0]
  · intro hn
    constructor
    · simp [resolveServer, hn]
    · simp [resolveServer, hn]

/-- A descriptor with a script and a trailing argument, used as the C7
witness instance. -/
def c7cfg : ServerConfig :=
  { command := "python"
    args := ["x.py", "a"]
    cwd := some "/w"
    env := [] }

/-- A descriptor with no positional arguments. -/
def c7cfgNone : ServerConfig :=
  { command := "npx"
    args := []
    cwd := none
    env := [] }

/-- Witness for C7 at concrete inputs, exercising both the script and
the no-script branches. -/
theorem script_arg_rewrite_witness :
    (resolveServer c7cfg [("Z", "z")] "/cwd").args =
      absPath "/cwd" (joinPath (cwdOf c7cfg "/cwd") "x.py") :: ["a"] ∧
    (∃ t₀, dget (resolveServer c7cfg [("Z", "z")] "/cwd").env "PYTHONPATH" =
      some (dirname (absPath "/cwd" (joinPath (cwdOf c7cfg "/cwd") "x.py")) ++ t₀)) ∧
    (resolveServer c7cfgNone [("Z", "z")] "/cwd").args = c7cfgNone.args ∧
    (resolveServer c7cfgNone [("Z", "z")] "/cwd").env =
      envUpdate [("Z", "z")] (resolveEnvOverrides c7cfgNone.env [("Z", "z")]).1 := by
  have h := script_arg_rewrite_and_pythonpath c7cfg [("Z", "z")] "/cwd"
  have hA := h.1 "x.py" ["a"] rfl (by decide)
  have hN := (script_arg_rewrite_and_pythonpath c7cfgNone [("Z", "z")] "/cwd").2 rfl
  exact ⟨hA.1, hA.2.1, hN.1, hN.2⟩

/-! ## Tracker lemmas -/

/-- Flag monotonicity between two tracker states: every flag that is set
in the first state is still set in the second. -/
def flagsMono (s t : WState) : Prop :=
  (s.has_league_rules = true → t.has_league_rules = true) ∧
  (s.has_roster = true → t.has_roster = true) ∧
  (s.has_matchup = true → t.has_matchup = true) ∧
  (s.has_browser_actions = true → t.has_browser_actions = true)

theorem flagsMono_refl (s : WState) : flagsMono s s :=
  ⟨fun h => h, fun h => h, fun h => h, fun h => h⟩

theorem flagsMono_trans {s t u : WState} (h₁ : flagsMono s t)
    (h₂ : flagsMono t u) : flagsMono s u :=
  ⟨fun h => h₂.1 (h₁.1 h), fun h => h₂.2.1 (h₁.2.1 h),
   fun h => h₂.2.2.1 (h₁.2.2.1 h), fun h => h₂.2.2.2 (h₁.2.2.2 h)⟩

theorem detectRules_spec (s : WState) (e : String) :
    flagsMono s (detectRules s e) ∧
    (detectRules s e).task_step = s.task_step ∧
    (detectRules s e).inited = s.inited := by
  unfold detectRules flagsMono
  split <;> simp

theorem detectRoster_spec (s : WState) (e : String) :
    flagsMono s (detectRoster s e) ∧
    (detectRoster s e).task_step = s.task_step ∧
    (detectRoster s e).inited = s.inited := by
  unfold detectRoster flagsMono
  split <;> simp

theorem detectMatchup_spec (s : WState) (e : String) :
    flagsMono s (detectMatchup s e) ∧
    (detectMatchup s e).task_step = s.task_step ∧
    (detectMatchup s e).inited = s.inited := by
  unfold detectMatchup flagsMono
  split <;> simp

theorem detectBrowser_spec (s : WState) (e : String) :
    flagsMono s (detectBrowser s e) ∧
    (detectBrowser s e).task_step = s.task_step ∧
    (detectBrowser s e).inited = s.inited := by
  unfold detectBrowser flagsMono
  split <;> simp

theorem detectEvent_spec (s : WState) (ev : String) :
    flagsMono s (detectEvent s ev) ∧
    (detectEvent s ev).task_step = s.task_step ∧
    (detectEvent s ev).inited = s.inited := by
  unfold detectEvent
  obtain ⟨m₁, t₁, i₁⟩ := detectRules_spec s (strLower ev)
  obtain ⟨m₂, t₂, i₂⟩ := detectRoster_spec (detectRules s (strLower ev)) (strLower ev)
  obtain ⟨m₃, t₃, i₃⟩ := detectMatchup_spec
    (detectRoster (detectRules s (strLower ev)) (strLower ev)) (strLower ev)
  obtain ⟨m₄, t₄, i₄⟩ := detectBrowser_spec
    (detectMatchup (detectRoster (detectRules s (strLower ev)) (strLower ev))
      (strLower ev)) (strLower ev)
  exact ⟨flagsMono_trans (flagsMono_trans (flagsMono_trans m₁ m₂) m₃) m₄,
    by rw [t₄, t₃, t₂, t₁], by rw [i₄, i₃, i₂, i₁]⟩

theorem detectFold_spec (l : List String) (s : WState) :
    flagsMono s (l.foldl detectEvent s) ∧
    (l.foldl detectEvent s).task_step = s.task_step ∧
    (l.foldl detectEvent s).inited = s.inited := by
  induction l generalizing s with
  | nil => exact ⟨flagsMono_refl s, rfl, rfl⟩
  | cons e t ih =>
      obtain ⟨m₁, t₁, i₁⟩ := detectEvent_spec s e
      obtain ⟨m₂, t₂, i₂⟩ := ih (detectEvent s e)
      exact ⟨flagsMono_trans m₁ m₂, by rw [List.foldl_cons, t₂, t₁],
        by rw [List.foldl_cons, i₂, i₁]⟩

theorem detectWindow_spec (events : List String) (s : WState) :
    flagsMono s (detectWindow events s) ∧
    (detectWindow events s).task_step = s.task_step ∧
    (detectWindow events s).inited = s.inited :=
  detectFold_spec ((lastFive events).reverse) s

theorem stepUpdate_flags (s : WState) :
    (stepUpdate s).has_league_rules = s.has_league_rules ∧
    (stepUpdate s).has_roster = s.has_roster ∧
    (stepUpdate s).has_matchup = s.has_matchup ∧
    (stepUpdate s).has_browser_actions = s.has_browser_actions := by
  unfold stepUpdate
  split <;> first | (split <;> simp) | simp

theorem stepUpdate_mono (s : WState) :
    stepIdx s.task_step ≤ stepIdx (stepUpdate s).task_step := by
  unfold stepUpdate
  split <;> rename_i h <;> (try split) <;> simp [stepIdx, h]

theorem stepUpdate_executing (t : WState)
    (ht : t.task_step = .executing_actions) :
    (stepUpdate t).task_step =
      if t.has_browser_actions then TaskStep.completing
      else TaskStep.executing_actions := by
  cases hb : t.has_browser_actions <;> simp [stepUpdate, ht, hb]

theorem track_before_id (s : WState) (h : s.inited = true) :
    track_workflow_state_before s = s := by
  unfold track_workflow_state_before
  rw [if_pos h]

/-! ## C8–C9: Workflow Progress Tracker claims -/

/-- C8: within an already-initialized session, one tracker round never
moves `task_step` backwards along the order
initializing → gathering_data → analyzing → executing_actions →
completing, and never resets any of the four boolean flags that is
already `true`. -/
theorem tracker_round_monotone (s : WState) (events : List String)
    (h : s.inited = true) :
    stepIdx s.task_step ≤ stepIdx (trackRound events s).task_step ∧
    (s.has_league_rules = true → (trackRound events s).has_league_rules = true) ∧
    (s.has_roster = true → (trackRound events s).has_roster = true) ∧
    (s.has_matchup = true → (trackRound events s).has_matchup = true) ∧
    (s.has_browser_actions = true →
      (trackRound events s).has_browser_actions = true) := by
  unfold trackRound
  rw [track_before_id s h]
  unfold track_workflow_state_after
  by_cases he : events.isEmpty
  · rw [if_pos he]
    exact ⟨le_refl _, fun hh => hh, fun hh => hh, fun hh => hh, fun hh => hh⟩
  · rw [if_neg he]
    obtain ⟨hmono, hstep, _⟩ := detectWindow_spec events s
    have hupd := stepUpdate_mono (detectWindow events s)
    obtain ⟨f₁, f₂, f₃, f₄⟩ := stepUpdate_flags (detectWindow events s)
    refine ⟨?_, ?_, ?_, ?_, ?_⟩
    · calc stepIdx s.task_step
          = stepIdx (detectWindow events s).task_step := by rw [hstep]
        _ ≤ stepIdx (stepUpdate (detectWindow events s)).task_step := hupd
    · intro hh
      rw [f₁]
      exact hmono.1 hh
    · intro hh
      rw [f₂]
      exact hmono.2.1 hh
    · intro hh
      rw [f₃]
      exact hmono.2.2.1 hh
    · intro hh
      rw [f₄]
      exact hmono.2.2.2 hh

/-- A mid-session state used as the C8 witness instance. -/
def c8state : WState :=
  { inited := true
    task_step := .gathering_data
    data_gathered := ["league_rules"]
    has_league_rules := true
    has_roster := false
    has_matchup := false
    has_browser_actions := false
    task_complete := false }

/-- Witness for C8 at a concrete mid-session state and event window. -/
theorem tracker_round_monotone_witness :
    stepIdx c8state.task_step ≤
      stepIdx (trackRound ["yahoo_ff_get_roster"] c8state).task_step ∧
    (c8state.has_league_rules = true →
      (trackRound ["yahoo_ff_get_roster"] c8state).has_league_rules = true) := by
  have h := tracker_round_monotone c8state ["yahoo_ff_get_roster"] rfl
  exact ⟨h.1, h.2.1⟩

/-- The session state after a round observing a league-rules retrieval. -/
def c9s1 : WState := trackRound ["get_stored_league_rules"] freshWState

/-- ... then a round observing a roster retrieval. -/
def c9s2 : WState := trackRound ["yahoo_ff_get_roster"] c9s1

/-- ... then a round observing a browser click: `executing_actions`. -/
def c9s3 : WState := trackRound ["browser_click"] c9s2

/-- C9 (counterexample): from a reachable `executing_actions` state, a
round whose event window contains *no* browser mutation-action indicator
still transitions to `completing` — the code re-checks the persistent
`has_browser_actions` flag, not a fresh observation, contradicting the
claim that without a new indicator the state remains
`executing_actions`. -/
theorem executing_advances_without_new_indicator :
    c9s3.task_step = TaskStep.executing_actions ∧
    browserIndicator (strLower "all done") = false ∧
    (trackRound ["all done"] c9s3).task_step = TaskStep.completing ∧
    (trackRound ["all done"] c9s3).task_step ≠ TaskStep.executing_actions := by
  decide

/-- C9 (amended): when `task_step` is `executing_actions`, a non-empty
round transitions to `completing` exactly when the monotone
`has_browser_actions` flag is set after the window scan — in particular
whenever the flag was already set on entry (as it necessarily is in any
state that reached `executing_actions`), regardless of whether a new
browser mutation-action indicator is observed in that round's window. -/
theorem executing_to_completing_iff_flag (s : WState) (events : List String)
    (h : s.inited = true) (hstep : s.task_step = .executing_actions)
    (hne : events.isEmpty = false) :
    ((trackRound events s).task_step = TaskStep.completing ↔
      (detectWindow events s).has_browser_actions = true) ∧
    (s.has_browser_actions = true →
      (trackRound events s).task_step = TaskStep.completing) := by
  unfold trackRound
  rw [track_before_id s h]
  unfold track_workflow_state_after
  rw [if_neg (by rw [hne]; exact Bool.false_ne_true)]
  obtain ⟨hmono, hdstep, _⟩ := detectWindow_spec events s
  have hex : (detectWindow events s).task_step = .executing_actions := by
    rw [hdstep, hstep]
  rw [stepUpdate_executing _ hex]
  constructor
  · cases hb : (detectWindow events s).has_browser_actions <;> simp [hb]
  · intro hh
    rw [hmono.2.2.2 hh]
    simp

/-- An `executing_actions` state with the browser flag set, as reached
by any session that entered that phase. -/
def c9sW : WState :=
  { inited := true
    task_step := .executing_actions
    data_gathered := ["league_rules", "roster"]
    has_league_rules := true
    has_roster := true
    has_matchup := false
    has_browser_actions := true
    task_complete := false }

/-- Witness for C9 (amended) at a concrete state and indicator-free
window. -/
theorem executing_to_completing_iff_flag_witness :
    ((trackRound ["wrap up"] c9sW).task_step = TaskStep.completing ↔
      (detectWindow ["wrap up"] c9sW).has_browser_actions = true) ∧
    (c9sW.has_browser_actions = true →
      (trackRound ["wrap up"] c9sW).task_step = TaskStep.completing) :=
  executing_to_completing_iff_flag c9sW ["wrap up"] rfl rfl rfl

/-! ## C10: formatter lemmas -/

/-- A roster entry that the counting loop classifies as a bench/IR slot:
its extracted name is a string whose uppercase form is in `benchNames`. -/
def isBenchEntry (pos : PyVal) : Bool :=
  match posEntryName pos with
  | .pystr s => decide (strUpper s ∈ benchNames)
  | _ => false

theorem buildCounts_cons_bench (pos : PyVal) (rest : List PyVal)
    (acc : List (String × Int)) (pname : String)
    (hn : posEntryName pos = .pystr pname) (hb : strUpper pname ∈ benchNames) :
    buildCounts (pos :: rest) acc = buildCounts rest acc := by
  simp only [buildCounts, hn]
  rw [if_pos hb]

theorem buildCounts_cons_ok (pos : PyVal) (rest : List PyVal)
    (acc : List (String × Int)) (pname : String) (c : Int)
    (hn : posEntryName pos = .pystr pname) (hb : strUpper pname ∉ benchNames)
    (hc : addCount (posEntryCount pos) = .ok c) :
    buildCounts (pos :: rest) acc = buildCounts rest (bumpCount acc pname c) := by
  simp only [buildCounts, hn]
  rw [if_neg hb]
  simp only [hc]

theorem buildCounts_cons_err (pos : PyVal) (rest : List PyVal)
    (acc : List (String × Int)) (pname : String) (e : String)
    (hn : posEntryName pos = .pystr pname) (hb : strUpper pname ∉ benchNames)
    (hc : addCount (posEntryCount pos) = .error e) :
    buildCounts (pos :: rest) acc = .error e := by
  simp only [buildCounts, hn]
  rw [if_neg hb]
  simp only [hc]

theorem buildCounts_filter_bench (xs : List PyVal) (acc : List (String × Int)) :
    buildCounts (xs.filter (fun p => !isBenchEntry p)) acc = buildCounts xs acc := by
  induction xs generalizing acc with
  | nil => rfl
  | cons pos rest ih =>
      cases hn : posEntryName pos with
      | pystr pname =>
          by_cases hb : strUpper pname ∈ benchNames
          · have hbe : isBenchEntry pos = true := by simp [isBenchEntry, hn, hb]
            rw [List.filter_cons]
            simp only [hbe, Bool.not_true]
            rw [if_neg (by simp), ih, buildCounts_cons_bench pos rest acc pname hn hb]
          · have hbe : isBenchEntry pos = false := by simp [isBenchEntry, hn, hb]
            rw [List.filter_cons]
            simp only [hbe, Bool.not_false]
            rw [if_true]
            cases hc : addCount (posEntryCount pos) with
            | ok c =>
                rw [buildCounts_cons_ok pos _ acc pname c hn hb hc,
                  buildCounts_cons_ok pos rest acc pname c hn hb hc, ih]
            | error e =>
                rw [buildCounts_cons_err pos _ acc pname e hn hb hc,
                  buildCounts_cons_err pos rest acc pname e hn hb hc]
      | pynone =>
          have hbe : isBenchEntry pos = false := by simp [isBenchEntry, hn]
          rw [List.filter_cons]
          simp only [hbe, Bool.not_false]
          rw [if_true]
          simp only [buildCounts, hn, ih]
      | pybool b =>
          have hbe : isBenchEntry pos = false := by simp [isBenchEntry, hn]
          rw [List.filter_cons]
          simp only [hbe, Bool.not_false]
          rw [if_true]
          simp only [buildCounts, hn, ih]
      | pyint n =>
          have hbe : isBenchEntry pos = false := by simp [isBenchEntry, hn]
          rw [List.filter_cons]
          simp only [hbe, Bool.not_false]
          rw [if_true]
          simp only [buildCounts, hn, ih]
      | pylist l =>
          have hbe : isBenchEntry pos = false := by simp [isBenchEntry, hn]
          rw [List.filter_cons]
          simp only [hbe, Bool.not_false]
          rw [if_true]
          simp only [buildCounts, hn, ih]
      | pydict d =>
          have hbe : isBenchEntry pos = false := by simp [isBenchEntry, hn]
          rw [List.filter_cons]
          simp only [hbe, Bool.not_false]
          rw [if_true]
          simp only [buildCounts, hn, ih]

theorem buildCounts_keys_not_bench (xs : List PyVal)
    (acc counts : List (String × Int))
    (hacc : ∀ pc ∈ acc, strUpper pc.1 ∉ benchNames)
    (h : buildCounts xs acc = .ok counts) :
    ∀ pc ∈ counts, strUpper pc.1 ∉ benchNames := by
  induction xs generalizing acc with
  | nil =>
      have hec : acc = counts := by simpa [buildCounts] using h
      exact hec ▸ hacc
  | cons pos rest ih =>
      cases hn : posEntryName pos with
      | pystr pname =>
          by_cases hb : strUpper pname ∈ benchNames
          · rw [buildCounts_cons_bench pos rest acc pname hn hb] at h
            exact ih acc hacc h
          · cases hc : addCount (posEntryCount pos) with
            | ok c =>
                rw [buildCounts_cons_ok pos rest acc pname c hn hb hc] at h
                refine ih _ ?_ h
                intro pc hpc
                simp only [bumpCount] at hpc
                rcases mem_dset _ _ _ pc hpc with h₁ | h₁
                · rw [h₁]
                  exact hb
                · exact hacc pc h₁
            | error e =>
                rw [buildCounts_cons_err pos rest acc pname e hn hb hc] at h
                cases h
      | pynone => simp [buildCounts, hn] at h
      | pybool b => simp [buildCounts, hn] at h
      | pyint n => simp [buildCounts, hn] at h
      | pylist l => simp [buildCounts, hn] at h
      | pydict d => simp [buildCounts, hn] at h

theorem mem_insertByKey (x a : String × Int) (l : List (String × Int)) :
    a ∈ insertByKey x l ↔ a = x ∨ a ∈ l := by
  induction l with
  | nil => simp [insertByKey]
  | cons y t ih =>
      unfold insertByKey
      split
      · simp [List.mem_cons]
      · simp only [List.mem_cons, ih]
        tauto

theorem mem_sortCounts (a : String × Int) (l : List (String × Int)) :
    a ∈ sortCounts l ↔ a ∈ l := by
  unfold sortCounts
  induction l with
  | nil => simp
  | cons x t ih =>
      simp only [List.foldr_cons]
      rw [mem_insertByKey, ih]
      exact (List.mem_cons).symm

/-- `mid` occurs as a contiguous segment of `whole`. -/
def StrInfix (mid whole : String) : Prop :=
  ∃ s₁ s₂, whole = s₁ ++ mid ++ s₂

theorem str_empty_append (s : String) : "" ++ s = s := by
  apply String.ext
  rw [String.data_append]
  show ("" : String).data ++ s.data = s.data
  have hd : ("" : String).data = [] := rfl
  rw [hd]
  exact List.nil_append _

theorem strInfix_head (mid b : String) : StrInfix mid (mid ++ b) :=
  ⟨"", b, by rw [str_empty_append]⟩

theorem strInfix_appendL (a : String) {mid w : String} (h : StrInfix mid w) :
    StrInfix mid (a ++ w) := by
  obtain ⟨s₁, s₂, hw⟩ := h
  exact ⟨a ++ s₁, s₂, by rw [hw]; simp [String.append_assoc]⟩

theorem strInfix_appendR (b : String) {mid w : String} (h : StrInfix mid w) :
    StrInfix mid (w ++ b) := by
  obtain ⟨s₁, s₂, hw⟩ := h
  exact ⟨s₁, s₂ ++ b, by rw [hw]; simp [String.append_assoc]⟩

theorem renderCountLines_item (l : List (String × Int)) (p : String) (c : Int)
    (h : (p, c) ∈ l) : StrInfix (countLine p c) (renderCountLines l) := by
  induction l with
  | nil => simp at h
  | cons y t ih =>
      obtain ⟨p₁, c₁⟩ := y
      simp only [renderCountLines]
      rcases List.mem_cons.mp h with he | ht
      · injection he with h₁ h₂
        subst h₁
        subst h₂
        rw [String.append_assoc]
        exact strInfix_head _ _
      · rw [String.append_assoc]
        exact strInfix_appendL _ (strInfix_appendL _ (ih ht))

theorem renderCountLines_super (l : List (String × Int)) (p : String) (c : Int)
    (h : (p, c) ∈ l) (hs : strUpper p ∈ superNames) :
    StrInfix superflexNote (renderCountLines l) := by
  induction l with
  | nil => simp at h
  | cons y t ih =>
      obtain ⟨p₁, c₁⟩ := y
      simp only [renderCountLines]
      rcases List.mem_cons.mp h with he | ht
      · injection he with h₁ h₂
        subst h₁
        subst h₂
        rw [if_pos hs, String.append_assoc]
        exact strInfix_appendL _ (strInfix_head _ _)
      · rw [String.append_assoc]
        exact strInfix_appendL _ (strInfix_appendL _ (ih ht))

/-! ## C10: claim theorems -/

/-- Raw league info whose roster has one starting slot and a bench slot
counting 5. -/
def c10rawWithBench : PyDict :=
  [("scoring_type", .pystr "PPR - 1.0"),
   ("roster_positions", .pylist
     [.pydict [("position", .pystr "QB"), ("count", .pyint 1)],
      .pydict [("position", .pystr "BN"), ("count", .pyint 5)]])]

/-- The same raw league info with the bench slot removed. -/
def c10rawNoBench : PyDict :=
  [("scoring_type", .pystr "PPR - 1.0"),
   ("roster_positions", .pylist
     [.pydict [("position", .pystr "QB"), ("count", .pyint 1)]])]

/-- C10 (counterexample): bench slots are *not* counted in the rendered
output — adding a bench slot with count 5 leaves the formatted string
completely unchanged, and the output itemizes only the starting `QB`
line with no bench information at all.  The claim says bench and IR
slots are "counted but not itemized". -/
theorem bench_not_counted_counterexample :
    formatRecord (normalizeRules "123" c10rawWithBench) =
      formatRecord (normalizeRules "123" c10rawNoBench) ∧
    formatRecord (normalizeRules "123" c10rawWithBench) =
      .ok ("\n=== LEAGUE RULES (League: ) ===\nScoring Type: PPR - 1.0\n" ++
        "⚠️ PPR League: Pass-catching players are MORE valuable\n" ++
        "\nRoster Positions:\n  - QB: 1\n\n") :=
  ⟨rfl, rfl⟩

/-- C10 (amended): for every stored record with a string scoring type
and a non-empty roster list that counts successfully, the roster listing
itemizes each counted position with its count; bench (BN/BE/BENCH) and
IR slots are excluded from the counting entirely — filtering them out of
the roster leaves the counts unchanged, and no counted position is a
bench/IR name — and every SUPERFLEX/OP position is flagged with the
explanatory note in the rendered output. -/
theorem roster_listing_excludes_bench (r : StoredRules) (sc : String)
    (xs : List PyVal) (counts : List (String × Int))
    (hsc : r.scoring_type = .pystr sc)
    (hros : r.roster_positions = .pylist xs)
    (hxs : xs ≠ [])
    (hbc : buildCounts xs [] = .ok counts) :
    buildCounts (xs.filter (fun p => !isBenchEntry p)) [] = .ok counts ∧
    (∀ p c, (p, c) ∈ counts → strUpper p ∉ benchNames) ∧
    (∃ out, formatRecord r = .ok out ∧
      ∀ p c, (p, c) ∈ counts →
        StrInfix (countLine p c) out ∧
        (strUpper p ∈ superNames → StrInfix superflexNote out)) := by
  have htr : pyTruthy (.pylist xs) = true := by
    cases xs with
    | nil => exact absurd rfl hxs
    | cons a t => rfl
  have hps : posSectionOf r.roster_positions =
      .ok ("\nRoster Positions:\n" ++ renderCountLines (sortCounts counts)) := by
    rw [hros]
    simp only [posSectionOf, htr, if_true, hbc]
  have hout : formatRecord r =
      .ok ("\n=== LEAGUE RULES (League: " ++ pyToStr r.league_name ++
        ") ===\n" ++ "Scoring Type: " ++ pyToStr (.pystr sc) ++ "\n" ++
        implLine (strLower sc) ++
        ("\nRoster Positions:\n" ++ renderCountLines (sortCounts counts)) ++
        "\n") := by
    simp only [formatRecord, hsc, hps]
  refine ⟨?_, ?_, ?_⟩
  · rw [buildCounts_filter_bench]
    exact hbc
  · exact fun p c hpc =>
      buildCounts_keys_not_bench xs [] counts (by simp) hbc (p, c) hpc
  · refine ⟨_, hout, ?_⟩
    intro p c hpc
    have hmem : (p, c) ∈ sortCounts counts := (mem_sortCounts _ _).mpr hpc
    constructor
    · exact strInfix_appendR _ (strInfix_appendL _
        (strInfix_appendL _ (renderCountLines_item _ _ _ hmem)))
    · intro hsup
      exact strInfix_appendR _ (strInfix_appendL _
        (strInfix_appendL _ (renderCountLines_super _ _ _ hmem hsup)))

/-- The roster list of the C10 witness: a starting slot, a SUPERFLEX
slot and a bench slot. -/
def c10xsSuper : List PyVal :=
  [.pydict [("position", .pystr "QB"), ("count", .pyint 1)],
   .pydict [("position", .pystr "SUPERFLEX"), ("count", .pyint 1)],
   .pydict [("position", .pystr "BN"), ("count", .pyint 6)]]

/-- Raw league info for the C10 witness. -/
def c10rawSuper : PyDict :=
  [("scoring_type", .pystr "Half PPR"),
   ("roster_positions", .pylist c10xsSuper)]

/-- Witness for C10 (amended) at a concrete record with QB, SUPERFLEX
and bench slots. -/
theorem roster_listing_excludes_bench_witness :
    buildCounts (c10xsSuper.filter (fun p => !isBenchEntry p)) [] =
      .ok [("QB", 1), ("SUPERFLEX", 1)] ∧
    (∀ p c, (p, c) ∈ [("QB", (1 : Int)), ("SUPERFLEX", 1)] →
      strUpper p ∉ benchNames) ∧
    (∃ out, formatRecord (normalizeRules "123" c10rawSuper) = .ok out ∧
      ∀ p c, (p, c) ∈ [("QB", (1 : Int)), ("SUPERFLEX", 1)] →
        StrInfix (countLine p c) out ∧
        (strUpper p ∈ superNames → StrInfix superflexNote out)) :=
  roster_listing_excludes_bench (normalizeRules "123" c10rawSuper) "Half PPR"
    c10xsSuper [("QB", 1), ("SUPERFLEX", 1)] rfl rfl
    (List.cons_ne_nil _ _) rfl
